import Mathlib

/-!
StrasheelaSuccessor, MusicRepresentation core.

A shallow embedding of `ScoreCore_TypeArgs.h`, `ScoreCore_ScoreObject.cpp` and
`ScoreCore_Item.cpp`, followed by the properties proved about it.

Conventions of the embedding:

* `std::string` is `String`; `std::vector<T>` is `List T` with `push_back` as
  appending at the end; `int` is `Int` (argument values are stored and returned,
  never computed with).
* A C++ function that may throw returns `Except Exception _`.
* `std::map<std::string, _>` is the list of its entries in iteration order, that
  is, strictly ascending by key under `std::less<std::string>`.
* Objects reached through pointers (`Item*`, `Parameter*`) live in a `Heap`
  indexed by their address; a nullable pointer is an `Option`.
-/

namespace StrasheelaSuccessor

/-! ## Texts and their order -/

/-- Lexicographic "less than" on character sequences, the comparison that
`std::string::compare` and `operator<` perform: the first differing character
decides, and a proper initial segment is smaller. -/
def ltChars : List Char → List Char → Bool
  | _, [] => false
  | [], _ :: _ => true
  | a :: s, b :: t =>
    if a.toNat < b.toNat then true
    else if b.toNat < a.toNat then false
    else ltChars s t

/-- The key comparison of `Args`, `std::less<std::string>`. -/
def keyLess (a b : String) : Bool := ltChars a.data b.data

/-- Key equivalence as `std::map` uses it for lookup: neither key is less than
the other. -/
def keyEquiv (a b : String) : Bool := !keyLess a b && !keyLess b a

/-- The value of `std::string::compare`, reduced to its sign. -/
def compare (s t : String) : Int :=
  if keyLess s t then -1 else if keyLess t s then 1 else 0

/-- The C string that `c_str()` hands out, as a reader of `const char*` sees it:
the characters before the first NUL. -/
def c_str (s : String) : String := ⟨s.data.takeWhile (fun c => c.toNat != 0)⟩

/-! ## Exceptions -/

/-- The exceptions thrown in this core: `std::invalid_argument` with its message,
and the `std::out_of_range` of `std::map::at`. The message `what` is the value
of `what()`, a C string: an exception built from a `std::string` carries that
string's `c_str()`, and one built from a literal without NUL carries the
literal. -/
inductive Exception where
  | invalid_argument (what : String)
  | out_of_range
  deriving DecidableEq, Repr

/-! ## ScoreObject (data) -/

/-- The data members of `ScoreObject`: the vector of info strings. -/
structure ScoreObject where
  info : List String
  deriving DecidableEq, Repr

/-! ## ScoreCore_TypeArgs.h -/

/-- The value type of `Args`:
`boost::variant<int, std::string, ScoreObject, std::vector<ScoreObject>>`. -/
inductive ArgValue where
  | int (i : Int)
  | string (str : String)
  | scoreObject (x : ScoreObject)
  | vectorOfScoreObjects (xs : List ScoreObject)
  deriving DecidableEq, Repr

/-- The map type `Args`: entries in iteration order, keys strictly ascending. -/
structure Args where
  entries : List (String × ArgValue)
  ordered : entries.Pairwise (fun a b => keyLess a.1 b.1 = true)

/-- The keys of a bag, in iteration order. -/
def Args.keys (as : Args) : List String := as.entries.map Prod.fst

/-- The empty map, `Args{}`. -/
def Args.empty : Args := ⟨[], List.Pairwise.nil⟩

/-- The member `std::map::count`: the number of entries with an equivalent key. -/
def Args.count (as : Args) (key : String) : Nat :=
  (as.entries.filter (fun e => keyEquiv e.1 key)).length

/-- The member `std::map::at`: the mapped value, or `std::out_of_range`. -/
def Args.at (as : Args) (key : String) : Except Exception ArgValue :=
  match as.entries.find? (fun e => keyEquiv e.1 key) with
  | some e => .ok e.2
  | none => .error .out_of_range

/-- The member `std::map::erase(key)`: all entries with an equivalent key go. -/
def Args.erase (as : Args) (key : String) : Args :=
  ⟨as.entries.filter (fun e => !keyEquiv e.1 key), as.ordered.filter _⟩

/-- Insertion of one entry into the ordered entry list; an entry with an
equivalent key is kept as it is (`std::map::insert` does not overwrite). -/
def insertEntry (k : String) (v : ArgValue) :
    List (String × ArgValue) → List (String × ArgValue)
  | [] => [(k, v)]
  | e :: rest =>
    if keyLess k e.1 then (k, v) :: e :: rest
    else if keyLess e.1 k then e :: insertEntry k v rest
    else e :: rest

/-! ### Order facts used by the map operations -/

theorem ltChars_irrefl (s : List Char) : ltChars s s = false := by
  induction s with
  | nil => rfl
  | cons a s ih => simp [ltChars, ih]

theorem ltChars_trans {s t u : List Char} (h₁ : ltChars s t = true)
    (h₂ : ltChars t u = true) : ltChars s u = true := by
  induction s generalizing t u with
  | nil =>
    cases t with
    | nil => simp [ltChars] at h₁
    | cons b t =>
      cases u with
      | nil => simp [ltChars] at h₂
      | cons c u => simp [ltChars]
  | cons a s ih =>
    cases t with
    | nil => simp [ltChars] at h₁
    | cons b t =>
      cases u with
      | nil => simp [ltChars] at h₂
      | cons c u =>
        simp only [ltChars] at h₁ h₂ ⊢
        split_ifs at h₁ h₂ ⊢ <;> first | rfl | omega | exact ih h₁ h₂

theorem ltChars_connected {s t : List Char} (h₁ : ltChars s t = false)
    (h₂ : ltChars t s = false) : s = t := by
  induction s generalizing t with
  | nil =>
    cases t with
    | nil => rfl
    | cons b t => simp [ltChars] at h₁
  | cons a s ih =>
    cases t with
    | nil => simp [ltChars] at h₂
    | cons b t =>
      simp only [ltChars] at h₁ h₂
      split_ifs at h₁ h₂
      have hab : a = b := Char.ext (UInt32.ext (by
        show a.toNat = b.toNat
        omega))
      rw [hab, ih h₁ h₂]

theorem keyLess_trans {a b c : String} (h₁ : keyLess a b = true)
    (h₂ : keyLess b c = true) : keyLess a c = true :=
  ltChars_trans h₁ h₂

theorem keyLess_irrefl (a : String) : keyLess a a = false :=
  ltChars_irrefl a.data

theorem keyEquiv_iff {a b : String} : keyEquiv a b = true ↔ a = b := by
  constructor
  · intro h
    simp only [keyEquiv, Bool.and_eq_true, Bool.not_eq_true'] at h
    exact String.ext (ltChars_connected h.1 h.2)
  · rintro rfl
    simp [keyEquiv, keyLess_irrefl]

theorem mem_insertEntry {k : String} {v : ArgValue} {l : List (String × ArgValue)}
    {e : String × ArgValue} (h : e ∈ insertEntry k v l) : e = (k, v) ∨ e ∈ l := by
  induction l with
  | nil => simpa [insertEntry] using h
  | cons x rest ih =>
    simp only [insertEntry] at h
    split_ifs at h with h₁ h₂
    · simpa using h
    · rcases List.mem_cons.1 h with h | h
      · exact Or.inr (by simp [h])
      · rcases ih h with h | h
        · exact Or.inl h
        · exact Or.inr (List.mem_cons_of_mem _ h)
    · exact Or.inr h

theorem insertEntry_ordered (k : String) (v : ArgValue) {l : List (String × ArgValue)}
    (h : l.Pairwise (fun a b => keyLess a.1 b.1 = true)) :
    (insertEntry k v l).Pairwise (fun a b => keyLess a.1 b.1 = true) := by
  induction l with
  | nil => simp [insertEntry]
  | cons x rest ih =>
    simp only [insertEntry]
    have hx := List.pairwise_cons.1 h
    split_ifs with h₁ h₂
    · refine List.pairwise_cons.2 ⟨?_, h⟩
      intro e he
      rcases List.mem_cons.1 he with rfl | he
      · exact h₁
      · exact keyLess_trans h₁ (hx.1 e he)
    · refine List.pairwise_cons.2 ⟨?_, ih hx.2⟩
      intro e he
      rcases mem_insertEntry he with rfl | he
      · exact h₂
      · exact hx.1 e he
    · exact h

/-- The member `std::map::insert` for one entry. -/
def Args.insert (as : Args) (k : String) (v : ArgValue) : Args :=
  ⟨insertEntry k v as.entries, insertEntry_ordered k v as.ordered⟩

/-- The initializer-list constructor `Args {{k₁, v₁}, {k₂, v₂}, ...}`: the pairs
are inserted one after the other, so of two pairs with the same key the first
one stays. -/
def Args.ofList (l : List (String × ArgValue)) : Args :=
  l.foldl (fun as e => as.insert e.1 e.2) Args.empty

/-- Modelled from the spec: the visitor `getStringArg` is only declared in
`ScoreCore_TypeArgs.h`; the bodies of its four `operator()` overloads are not
among the sources. The spec describes the extractors as operations "that convert
a bag value to that kind or fail if the stored kind does not match"; the failure
is the TypeMismatch error, which the generic visitor `getArg` of the same header
raises as `std::invalid_argument{"invalid type"}`. -/
def getStringArg : ArgValue → Except Exception String
  | .string str => .ok str
  | .int _ => .error (.invalid_argument "invalid type")
  | .scoreObject _ => .error (.invalid_argument "invalid type")
  | .vectorOfScoreObjects _ => .error (.invalid_argument "invalid type")

/-- The closed set of value kinds of the variant, that is, the types `T` at which
the first overload of `getArg<T>` can be chosen. -/
inductive Kind where
  | int
  | string
  | scoreObject
  | vectorOfScoreObjects
  deriving DecidableEq, Repr

/-- The C++ type a kind stands for. -/
def Kind.type : Kind → Type
  | .int => Int
  | .string => String
  | .scoreObject => ScoreObject
  | .vectorOfScoreObjects => List ScoreObject

/-- The kind of the value a variant holds. -/
def ArgValue.kind : ArgValue → Kind
  | .int _ => .int
  | .string _ => .string
  | .scoreObject _ => .scoreObject
  | .vectorOfScoreObjects _ => .vectorOfScoreObjects

/-- The variant that stores a given value of kind `T`. -/
def ArgValue.ofKind : (T : Kind) → T.type → ArgValue
  | .int, i => .int i
  | .string, str => .string str
  | .scoreObject, x => .scoreObject x
  | .vectorOfScoreObjects, xs => .vectorOfScoreObjects xs

/-- The visitor `getArg<T>` applied to a variant. On a value of type `T` overload
resolution takes `T operator()(const T& t) { return t; }`; on a value of any
other type `U` only the member template matches, and it throws
`std::invalid_argument{"invalid type"}`. -/
def getArg : (T : Kind) → ArgValue → Except Exception T.type
  | .int, .int i => .ok i
  | .string, .string str => .ok str
  | .scoreObject, .scoreObject x => .ok x
  | .vectorOfScoreObjects, .vectorOfScoreObjects xs => .ok xs
  | _, _ => .error (.invalid_argument "invalid type")

/-- Modelled from the spec: `reduceArgsBy` is only declared in
`ScoreCore_TypeArgs.h`, its body is not among the sources. The spec: "returns a
copy of `bag` with every key in `keys` removed". The bag is taken by value and
each key of the vector is erased from the copy. -/
def reduceArgsBy (as : Args) (keys : List String) : Args :=
  keys.foldl (fun reduced key => reduced.erase key) as

/-- Modelled from the spec: `extractIntArg` is only declared in
`ScoreCore_TypeArgs.h`, its body is not among the sources. The spec: "returns
the typed value if `name` is present and holds that kind; returns `defaultVal`
if `name` is absent; fails with TypeMismatch if `name` is present but holds a
different value kind. Does not mutate the bag." The dispatch by kind is the
type-checked visitor for `int`. -/
def extractIntArg (as : Args) (argName : String) (defaultVal : Int) :
    Except Exception Int :=
  if as.count argName ≠ 0 then
    match as.at argName with
    | .error e => .error e
    | .ok v => getArg .int v
  else .ok defaultVal

/-! ## ScoreCore_ScoreObject.cpp -/

/-- The constructor `ScoreObject::ScoreObject(args as)`. The bag is taken by
value, so the caller's bag is untouched; `info` starts as the empty vector. The
closing loop throws in its first iteration, that is, on the first entry left;
the exception is built from the concatenated `std::string`, and its message is
what `what()` returns. -/
def ScoreObject.construct (as : Args) : Except Exception ScoreObject :=
  -- process arg info
  let processed : Except Exception (List String × Args) :=
    if as.count "info" ≠ 0 then
      match as.at "info" with
      | .error e => .error e
      | .ok v =>
        match getStringArg v with
        | .error e => .error e
        | .ok str => .ok ([] ++ [str], as.erase "info")
    else .ok ([], as)
  -- raise exception if there are any remaining args
  match processed with
  | .error e => .error e
  | .ok (info, as) =>
    match as.entries with
    | [] => .ok ⟨info⟩
    | x :: _ =>
      .error (.invalid_argument (c_str ("ScoreObject::ScoreObject(args as)" ++ x.1)))

/-- The member `ScoreObject::getInfo`. -/
def ScoreObject.getInfo (self : ScoreObject) : List String := self.info

/-- The member `ScoreObject::addInfo`: `info.push_back(myInfo)`. -/
def ScoreObject.addInfo (self : ScoreObject) (myInfo : String) : ScoreObject :=
  { self with info := self.info ++ [myInfo] }

/-- The member `ScoreObject::hasThisInfo`: `any_of` over the info vector with the
test `s.compare(myInfo) == 0`. -/
def ScoreObject.hasThisInfo (self : ScoreObject) (myInfo : String) : Bool :=
  self.info.any (fun s => compare s myInfo == 0)

/-! ## ScoreCore_Item.cpp -/

/-- The address of a live `Item` (the value of `this` inside a member). -/
abbrev ItemPtr := Nat

/-- The address of a live `Parameter`, an element of `std::vector<Parameter*>`. -/
abbrev ParameterPtr := Nat

/-- A value of type `Container*`: `none` is the null pointer. -/
abbrev ContainerPtr := Option Nat

/-- The data members of `Item`: those of its base `ScoreObject`, the vector
`parameters` and the pointer `container`. -/
structure Item extends ScoreObject where
  parameters : List ParameterPtr
  container : ContainerPtr
  deriving DecidableEq, Repr

/-- Modelled from the spec: class `Parameter` is not among the sources. The spec
treats it as an external entity exposing "a mutator accepting an `Item`
back-reference (`setItem`)"; the only state kept here is that back-reference. -/
structure Parameter where
  item : Option ItemPtr
  deriving DecidableEq, Repr

/-- Modelled from the spec: `Parameter::setItem`, the "set owning item" mutator,
is not among the sources; it stores the given `Item*` as the back-reference. -/
def Parameter.setItem (self : Parameter) (i : Option ItemPtr) : Parameter :=
  { self with item := i }

/-- The objects of the score graph: every `Item` and every `Parameter`, by
address. -/
structure Heap where
  items : ItemPtr → Item
  params : ParameterPtr → Parameter

/-- The constructor `Item::Item(Args as) : ScoreObject{as} {}`. The vector
`parameters` starts empty; the initial value of the pointer `container` is set
in the class declaration, which is not among the sources, and is taken as the
argument `container`. -/
def Item.construct (as : Args) (container : ContainerPtr) : Except Exception Item :=
  match ScoreObject.construct as with
  | .error e => .error e
  | .ok base => .ok { toScoreObject := base, parameters := [], container := container }

/-- The member `Item::getParameters`. -/
def Item.getParameters (self : Item) : List ParameterPtr := self.parameters

/-- The member `Item::getContainer`. -/
def Item.getContainer (self : Item) : ContainerPtr := self.container

/-- The member `Item::setContainer`. -/
def Item.setContainer (self : Item) (c : ContainerPtr) : Item :=
  { self with container := c }

/-- One iteration of the loop of `Item::bilinkParameters`:
`parameters.push_back(p); p->setItem(this);`. -/
def Item.bilinkStep (self : ItemPtr) (h : Heap) (p : ParameterPtr) : Heap :=
  let h₁ : Heap :=
    { h with
      items := Function.update h.items self
        { h.items self with parameters := (h.items self).parameters ++ [p] } }
  { h₁ with params := Function.update h₁.params p ((h₁.params p).setItem (some self)) }

/-- The member `Item::bilinkParameters`, called on the `Item` at address `self`
(the pointer `this`): the loop runs over the (copied) vector `ps` front to back. -/
def Item.bilinkParameters (h : Heap) (self : ItemPtr) (ps : List ParameterPtr) : Heap :=
  ps.foldl (Item.bilinkStep self) h

/-- The inherited `addInfo` called on the `Item` at address `self`. -/
def Heap.addInfo (h : Heap) (self : ItemPtr) (myInfo : String) : Heap :=
  { h with
    items := Function.update h.items self
      { h.items self with toScoreObject := (h.items self).toScoreObject.addInfo myInfo } }

/-- The member `setContainer` called on the `Item` at address `self`. -/
def Heap.setContainer (h : Heap) (self : ItemPtr) (c : ContainerPtr) : Heap :=
  { h with items := Function.update h.items self ((h.items self).setContainer c) }

/-! ## Histories of the object graph -/

/-- A call of one of the mutating members available after construction, with the
`Item` it is called on. -/
inductive Operation where
  | addInfo (self : ItemPtr) (myInfo : String)
  | setContainer (self : ItemPtr) (c : ContainerPtr)
  | bilinkParameters (self : ItemPtr) (ps : List ParameterPtr)
  deriving DecidableEq, Repr

/-- The effect of one call on the heap. -/
def Operation.apply (h : Heap) : Operation → Heap
  | .addInfo self myInfo => h.addInfo self myInfo
  | .setContainer self c => h.setContainer self c
  | .bilinkParameters self ps => Item.bilinkParameters h self ps

/-- The heap after a sequence of calls, first call first. -/
def Heap.run (h : Heap) (ops : List Operation) : Heap :=
  ops.foldl Operation.apply h

/-- A heap of freshly constructed objects: no `Item` holds a parameter and no
`Parameter` is linked. -/
def Heap.Fresh (h : Heap) : Prop :=
  (∀ i, (h.items i).getParameters = []) ∧ ∀ p, (h.params p).item = none

/-- Bidirectional consistency: every parameter in an item's parameter sequence
points back to that item. -/
def Heap.Bilinked (h : Heap) : Prop :=
  ∀ i p, p ∈ (h.items i).getParameters → (h.params p).item = some i

/-- A call is exclusive in a heap when it hands `bilinkParameters` no parameter
that sits in the parameter sequence of another `Item`. The other members are
always exclusive. -/
def Operation.Exclusive (h : Heap) : Operation → Prop
  | .bilinkParameters self ps =>
    ∀ p ∈ ps, ∀ j, j ≠ self → p ∉ (h.items j).getParameters
  | _ => True

/-- Every call of the sequence is exclusive in the heap it is made in. -/
def Heap.RunsExclusive (h : Heap) : List Operation → Prop
  | [] => True
  | op :: ops => op.Exclusive h ∧ (op.apply h).RunsExclusive ops

/-- The heap in which every `Item` is as constructed from the empty bag with a
null container, and every `Parameter` is unlinked. -/
def Heap.fresh : Heap :=
  { items := fun _ => { info := [], parameters := [], container := none }
    params := fun _ => { item := none } }

/-! ## Properties -/


/-! ### The constructor of ScoreObject -/

theorem Args.erase_entries_eq_nil_iff (as : Args) (key : String) :
    (as.erase key).entries = [] ↔ ∀ k ∈ as.keys, k = key := by
  simp only [Args.erase, Args.keys, List.filter_eq_nil_iff, List.mem_map]
  constructor
  · rintro h k ⟨e, he, rfl⟩
    have := h e he
    simpa [keyEquiv_iff] using this
  · intro h e he
    have := h e.1 ⟨e, he, rfl⟩
    simpa [keyEquiv_iff] using this

/-- When the entry named "info", if any, holds a text, the constructor's outcome
is decided by what is left of the bag once "info" is erased. -/
theorem ScoreObject.construct_eq_of_text (as : Args)
    (htext : ∀ e ∈ as.entries, e.1 = "info" → ∃ str, e.2 = ArgValue.string str) :
    ∃ info, ScoreObject.construct as =
      match (as.erase "info").entries with
      | [] => .ok ⟨info⟩
      | x :: _ =>
        .error (.invalid_argument (c_str ("ScoreObject::ScoreObject(args as)" ++ x.1))) := by
  by_cases hc : as.count "info" ≠ 0
  · cases hf : as.entries.find? (fun e => keyEquiv e.1 "info") with
    | none =>
      exfalso
      apply hc
      rw [List.find?_eq_none] at hf
      simp only [Args.count, List.length_eq_zero, List.filter_eq_nil_iff]
      exact hf
    | some e =>
      have hmem : e ∈ as.entries := List.mem_of_find?_eq_some hf
      have hkey : e.1 = "info" := keyEquiv_iff.1 (by simpa using List.find?_some hf)
      obtain ⟨str, hstr⟩ := htext e hmem hkey
      refine ⟨[str], ?_⟩
      simp only [ScoreObject.construct, Args.at, hf, hstr, getStringArg, List.nil_append]
      rw [if_pos hc]
  · refine ⟨[], ?_⟩
    have hz : as.count "info" = 0 := not_not.1 hc
    have herase : (as.erase "info").entries = as.entries := by
      simp only [Args.count, List.length_eq_zero, List.filter_eq_nil_iff] at hz
      simp only [Args.erase, List.filter_eq_self, Bool.not_eq_true']
      intro e he
      simpa using hz e he
    simp only [ScoreObject.construct]
    rw [if_neg hc, herase]

/-- C1. For every bag whose "info" entry, if present, holds a text: construction
of a ScoreObject succeeds exactly when the bag has no key other than "info", and
whenever another key is present it fails with `std::invalid_argument`, so that no
object is produced. -/
theorem ScoreObject.construct_ok_iff_only_info (as : Args)
    (htext : ∀ e ∈ as.entries, e.1 = "info" → ∃ str, e.2 = ArgValue.string str) :
    ((∃ o, ScoreObject.construct as = .ok o) ↔ ∀ k ∈ as.keys, k = "info") ∧
    ((∃ k ∈ as.keys, k ≠ "info") →
      ∃ what, ScoreObject.construct as = .error (.invalid_argument what)) := by
  obtain ⟨info, hctor⟩ := ScoreObject.construct_eq_of_text as htext
  have hnil := Args.erase_entries_eq_nil_iff as "info"
  cases hrest : (as.erase "info").entries with
  | nil =>
    rw [hrest] at hctor hnil
    have hall := hnil.1 rfl
    refine ⟨⟨fun _ => hall, fun _ => ⟨_, hctor⟩⟩, ?_⟩
    rintro ⟨k, hk, hne⟩
    exact absurd (hall k hk) hne
  | cons x rest =>
    rw [hrest] at hctor hnil
    have hnot : ¬ ∀ k ∈ as.keys, k = "info" := fun h => List.cons_ne_nil _ _ (hnil.2 h)
    refine ⟨⟨?_, fun h => absurd h hnot⟩, fun _ => ⟨_, hctor⟩⟩
    rintro ⟨o, ho⟩
    rw [hctor] at ho
    exact Except.noConfusion ho

/-- Witness for C1: the bag `{"info": "x", "bogus": 1}`. -/
theorem ScoreObject.construct_ok_iff_only_info_witness :
    ((∃ o, ScoreObject.construct
        (Args.ofList [("info", .string "x"), ("bogus", .int 1)]) = .ok o) ↔
      ∀ k ∈ (Args.ofList [("info", .string "x"), ("bogus", .int 1)]).keys, k = "info") ∧
    ((∃ k ∈ (Args.ofList [("info", .string "x"), ("bogus", .int 1)]).keys, k ≠ "info") →
      ∃ what, ScoreObject.construct
        (Args.ofList [("info", .string "x"), ("bogus", .int 1)]) =
          .error (.invalid_argument what)) :=
  ScoreObject.construct_ok_iff_only_info
    (Args.ofList [("info", .string "x"), ("bogus", .int 1)])
    (by
      intro e he hkey
      have hentries : (Args.ofList [("info", .string "x"), ("bogus", .int 1)]).entries =
          [("bogus", .int 1), ("info", .string "x")] := rfl
      rw [hentries] at he
      simp only [List.mem_cons, List.mem_singleton, List.not_mem_nil, or_false] at he
      rcases he with rfl | rfl
      · exact absurd hkey (by decide)
      · exact ⟨"x", rfl⟩)

/-- C2. For every text `x`, construction from the bag that contains only
`{"info": x}` succeeds, and `getInfo()` of the object is exactly `[x]`. -/
theorem ScoreObject.construct_info_only (x : String) :
    ∃ o, ScoreObject.construct (Args.ofList [("info", .string x)]) = .ok o ∧
      o.getInfo = [x] :=
  ⟨⟨[x]⟩, rfl, rfl⟩

/-- C3. Construction from the empty bag succeeds, and `getInfo()` of the object
is the empty sequence. -/
theorem ScoreObject.construct_empty :
    ∃ o, ScoreObject.construct Args.empty = .ok o ∧ o.getInfo = [] :=
  ⟨⟨[]⟩, rfl, rfl⟩

/-- C4. For every text `x` and integer `n`, construction from the bag
`{"info": x, "bogus": n}` fails with `std::invalid_argument`, and the message is
the constructor's signature text immediately followed by the key "bogus";
the order in which the two pairs are written does not matter. -/
theorem ScoreObject.construct_info_bogus (x : String) (n : Int) :
    ScoreObject.construct (Args.ofList [("info", .string x), ("bogus", .int n)]) =
        .error (.invalid_argument ("ScoreObject::ScoreObject(args as)" ++ "bogus")) ∧
    ScoreObject.construct (Args.ofList [("bogus", .int n), ("info", .string x)]) =
        .error (.invalid_argument ("ScoreObject::ScoreObject(args as)" ++ "bogus")) ∧
    "ScoreObject::ScoreObject(args as)" ++ "bogus" = "ScoreObject::ScoreObject(args as)bogus" :=
  ⟨rfl, rfl, by decide⟩

/-! ### Linking parameters to an Item -/

theorem Item.bilinkStep_items (self : ItemPtr) (h : Heap) (p : ParameterPtr) (j : ItemPtr) :
    (Item.bilinkStep self h p).items j =
      if j = self then { h.items self with parameters := (h.items self).parameters ++ [p] }
      else h.items j := by
  by_cases hj : j = self
  · subst hj
    simp [Item.bilinkStep]
  · simp [Item.bilinkStep, hj]

theorem Item.bilinkStep_params (self : ItemPtr) (h : Heap) (p q : ParameterPtr) :
    (Item.bilinkStep self h p).params q =
      if q = p then (h.params p).setItem (some self) else h.params q := by
  by_cases hq : q = p
  · subst hq
    simp [Item.bilinkStep]
  · simp [Item.bilinkStep, hq]

/-- The items of the heap after `bilinkParameters`: the receiver has `ps`
appended to its parameters, every other field and every other item is as before. -/
theorem Item.bilinkParameters_items (h : Heap) (self : ItemPtr) (ps : List ParameterPtr)
    (j : ItemPtr) :
    (Item.bilinkParameters h self ps).items j =
      if j = self then { h.items self with parameters := (h.items self).parameters ++ ps }
      else h.items j := by
  induction ps generalizing h with
  | nil =>
    by_cases hj : j = self
    · subst hj
      simp [Item.bilinkParameters]
    · simp [Item.bilinkParameters, hj]
  | cons p ps ih =>
    have hstep : Item.bilinkParameters h self (p :: ps) =
        Item.bilinkParameters (Item.bilinkStep self h p) self ps := rfl
    rw [hstep, ih, Item.bilinkStep_items, Item.bilinkStep_items]
    by_cases hj : j = self
    · simp [hj]
    · simp [hj]

/-- The parameters of the heap after `bilinkParameters`: those in `ps` point to
the receiver, the others are as before. -/
theorem Item.bilinkParameters_params (h : Heap) (self : ItemPtr) (ps : List ParameterPtr)
    (q : ParameterPtr) :
    (Item.bilinkParameters h self ps).params q =
      if q ∈ ps then (h.params q).setItem (some self) else h.params q := by
  induction ps generalizing h with
  | nil => simp [Item.bilinkParameters]
  | cons p ps ih =>
    have hstep : Item.bilinkParameters h self (p :: ps) =
        Item.bilinkParameters (Item.bilinkStep self h p) self ps := rfl
    rw [hstep, ih, Item.bilinkStep_params]
    by_cases hqp : q = p
    · subst hqp
      by_cases hq : q ∈ ps
      · simp [hq, Parameter.setItem]
      · simp [hq]
    · by_cases hq : q ∈ ps
      · simp [hq, hqp]
      · simp [hq, hqp]

/-- C5. After `I.bilinkParameters(P)`, `I.getParameters()` is the old sequence
followed by `P` (so it is exactly `P`, in input order and with repetitions kept,
when `I` had no parameters), and every `p` in `P` points back to `I`. -/
theorem Item.bilinkParameters_links (h : Heap) (self : ItemPtr) (ps : List ParameterPtr) :
    ((Item.bilinkParameters h self ps).items self).getParameters =
        (h.items self).getParameters ++ ps ∧
    ((h.items self).getParameters = [] →
      ((Item.bilinkParameters h self ps).items self).getParameters = ps) ∧
    ∀ p ∈ ps, ((Item.bilinkParameters h self ps).params p).item = some self := by
  have hparams : ((Item.bilinkParameters h self ps).items self).getParameters =
      (h.items self).getParameters ++ ps := by
    rw [Item.bilinkParameters_items]
    simp [Item.getParameters]
  refine ⟨hparams, ?_, ?_⟩
  · intro hempty
    rw [hparams, hempty, List.nil_append]
  · intro p hp
    rw [Item.bilinkParameters_params]
    simp [hp, Parameter.setItem]

/-- Witness for C5: a fresh Item links the sequence `[3, 4, 3]`, which repeats a
parameter. -/
theorem Item.bilinkParameters_links_witness :
    ((Item.bilinkParameters Heap.fresh 0 [3, 4, 3]).items 0).getParameters = [3, 4, 3] ∧
    ((Item.bilinkParameters Heap.fresh 0 [3, 4, 3]).params 4).item = some 0 :=
  ⟨(Item.bilinkParameters_links Heap.fresh 0 [3, 4, 3]).2.1 rfl,
   (Item.bilinkParameters_links Heap.fresh 0 [3, 4, 3]).2.2 4 (by decide)⟩

/-- C7. The member `bilinkParameters` is a total function of the heap, the
receiver and the sequence (it has no failing path), and afterwards every `p` in
`ps` points back to the receiver, whatever `p` pointed to before. -/
theorem Item.bilinkParameters_overwrites (h : Heap) (self : ItemPtr)
    (ps : List ParameterPtr) (p : ParameterPtr) (hp : p ∈ ps) :
    ∃ h', Item.bilinkParameters h self ps = h' ∧ (h'.params p).item = some self := by
  refine ⟨_, rfl, ?_⟩
  rw [Item.bilinkParameters_params]
  simp [hp, Parameter.setItem]

/-- Witness for C7: parameter 7 is linked to Item 1 and then to Item 0; the
second link wins. -/
theorem Item.bilinkParameters_overwrites_witness :
    ((Item.bilinkParameters Heap.fresh 1 [7]).params 7).item = some 1 ∧
    ∃ h', Item.bilinkParameters (Item.bilinkParameters Heap.fresh 1 [7]) 0 [7] = h' ∧
      (h'.params 7).item = some 0 :=
  ⟨by decide,
   Item.bilinkParameters_overwrites (Item.bilinkParameters Heap.fresh 1 [7]) 0 [7] 7
     (by decide)⟩

/-! ### Bidirectional consistency over histories -/

theorem Heap.Fresh.bilinked {h : Heap} (hf : h.Fresh) : h.Bilinked := by
  intro i p hp
  rw [hf.1 i] at hp
  exact absurd hp (List.not_mem_nil p)

/-- One exclusive call keeps the heap bidirectionally consistent. -/
theorem Operation.apply_bilinked {h : Heap} (hb : h.Bilinked) (op : Operation)
    (hex : op.Exclusive h) : (op.apply h).Bilinked := by
  cases op with
  | addInfo self myInfo =>
    intro i p hp
    have hitem : ((Operation.addInfo self myInfo).apply h).items i =
        if i = self then
          { h.items self with toScoreObject := (h.items self).toScoreObject.addInfo myInfo }
        else h.items i := by
      by_cases hi : i = self
      · subst hi
        simp [Operation.apply, Heap.addInfo]
      · simp [Operation.apply, Heap.addInfo, hi]
    rw [hitem] at hp
    by_cases hi : i = self
    · subst hi
      rw [if_pos rfl] at hp
      exact hb i p hp
    · rw [if_neg hi] at hp
      exact hb i p hp
  | setContainer self c =>
    intro i p hp
    have hitem : ((Operation.setContainer self c).apply h).items i =
        if i = self then (h.items self).setContainer c else h.items i := by
      by_cases hi : i = self
      · subst hi
        simp [Operation.apply, Heap.setContainer]
      · simp [Operation.apply, Heap.setContainer, hi]
    rw [hitem] at hp
    by_cases hi : i = self
    · subst hi
      rw [if_pos rfl] at hp
      exact hb i p hp
    · rw [if_neg hi] at hp
      exact hb i p hp
  | bilinkParameters self ps =>
    intro i p hp
    simp only [Operation.apply] at hp ⊢
    rw [Item.bilinkParameters_items] at hp
    rw [Item.bilinkParameters_params]
    by_cases hi : i = self
    · subst hi
      rw [if_pos rfl] at hp
      have hp' : p ∈ (h.items i).parameters ++ ps := hp
      by_cases hps : p ∈ ps
      · simp [hps, Parameter.setItem]
      · rw [if_neg hps]
        rcases List.mem_append.1 hp' with hold | hnew
        · exact hb i p hold
        · exact absurd hnew hps
    · rw [if_neg hi] at hp
      have hps : p ∉ ps := fun hmem => hex p hmem i hi hp
      rw [if_neg hps]
      exact hb i p hp

theorem Heap.run_bilinked {h : Heap} (hb : h.Bilinked) (ops : List Operation)
    (hex : h.RunsExclusive ops) : (h.run ops).Bilinked := by
  induction ops generalizing h with
  | nil => exact hb
  | cons op ops ih =>
    exact ih (Operation.apply_bilinked hb op hex.1) hex.2

/-- C6, as stated, fails: from the fresh heap, Item 0 links parameter 7 and then
Item 1 links the same parameter; parameter 7 is still in the parameter sequence
of Item 0 but points back to Item 1. -/
theorem Heap.bilinked_fails_after_relinking :
    Heap.fresh.Fresh ∧
    7 ∈ ((Heap.fresh.run
      [.bilinkParameters 0 [7], .bilinkParameters 1 [7]]).items 0).getParameters ∧
    ((Heap.fresh.run
      [.bilinkParameters 0 [7], .bilinkParameters 1 [7]]).params 7).item = some 1 ∧
    ¬ (Heap.fresh.run [.bilinkParameters 0 [7], .bilinkParameters 1 [7]]).Bilinked := by
  refine ⟨⟨fun _ => rfl, fun _ => rfl⟩, by decide, by decide, ?_⟩
  intro hb
  exact absurd (hb 0 7 (by decide)) (by decide)

/-- C6, amended. In every state reached from freshly constructed Items and
unlinked Parameters by a sequence of `addInfo`, `setContainer` and
`bilinkParameters` calls in which no `bilinkParameters` call is handed a
parameter that sits in the parameter sequence of another Item, every parameter
in an Item's parameter sequence points back to that Item. -/
theorem Heap.bilinked_of_exclusive_run (h : Heap) (ops : List Operation)
    (hfresh : h.Fresh) (hex : h.RunsExclusive ops) : (h.run ops).Bilinked :=
  Heap.run_bilinked hfresh.bilinked ops hex

/-- Witness for the amended C6: two Items link disjoint parameters, one of them
twice, with an `addInfo` and a `setContainer` in between. -/
theorem Heap.bilinked_of_exclusive_run_witness :
    (Heap.fresh.run
      [.bilinkParameters 0 [3, 4], .addInfo 0 "x", .bilinkParameters 1 [5],
       .setContainer 1 (some 9), .bilinkParameters 0 [4]]).Bilinked :=
  Heap.bilinked_of_exclusive_run Heap.fresh
    [.bilinkParameters 0 [3, 4], .addInfo 0 "x", .bilinkParameters 1 [5],
     .setContainer 1 (some 9), .bilinkParameters 0 [4]]
    ⟨fun _ => rfl, fun _ => rfl⟩
    (by
      refine ⟨?_, trivial, ?_, trivial, ?_, trivial⟩
      · intro p _ j _
        exact List.not_mem_nil p
      · intro p hp j hj
        have hp5 : p = 5 := by simpa using hp
        subst hp5
        simp only [Operation.apply, Heap.addInfo, Item.getParameters]
        by_cases h0 : j = 0
        · subst h0
          simp [Item.bilinkParameters_items, Heap.fresh]
        · simp [Item.bilinkParameters_items, Heap.fresh, h0, Function.update_noteq h0]
      · intro p hp j hj
        have hp4 : p = 4 := by simpa using hp
        subst hp4
        simp only [Operation.apply, Heap.addInfo, Heap.setContainer, Item.getParameters,
          Item.setContainer]
        by_cases h1 : j = 1
        · subst h1
          simp [Item.bilinkParameters_items, Heap.fresh]
        · simp [Item.bilinkParameters_items, Heap.fresh, h1, hj, Function.update_noteq h1,
            Function.update_noteq hj])

/-! ### The info sequence and the container reference -/

theorem compare_eq_zero_iff (s t : String) : compare s t = 0 ↔ s = t := by
  rw [← keyEquiv_iff]
  simp only [compare, keyEquiv, Bool.and_eq_true, Bool.not_eq_true']
  by_cases h₁ : keyLess s t = true
  · simp [h₁]
  · by_cases h₂ : keyLess t s = true
    · simp [h₁, h₂]
    · simp [h₁, h₂]

/-- C8. The test `hasThisInfo(t)` is true exactly when some entry of `getInfo()`
equals `t`; it is true right after `addInfo(t)`, and false for every text that
equals no stored entry, so false for every text when the info is empty. -/
theorem ScoreObject.hasThisInfo_iff (o : ScoreObject) (t : String) :
    (o.hasThisInfo t = true ↔ ∃ s ∈ o.getInfo, s = t) ∧
    (o.addInfo t).hasThisInfo t = true ∧
    (∀ u, (∀ s ∈ o.getInfo, s ≠ u) → o.hasThisInfo u = false) ∧
    (o.getInfo = [] → ∀ u, o.hasThisInfo u = false) := by
  have key : ∀ (x : ScoreObject) (u : String),
      x.hasThisInfo u = true ↔ ∃ s ∈ x.getInfo, s = u := by
    intro x u
    simp only [ScoreObject.hasThisInfo, ScoreObject.getInfo, List.any_eq_true, beq_iff_eq,
      compare_eq_zero_iff]
  refine ⟨key o t, ?_, ?_, ?_⟩
  · rw [key]
    exact ⟨t, by simp [ScoreObject.addInfo, ScoreObject.getInfo], rfl⟩
  · intro u hu
    rw [Bool.eq_false_iff]
    intro htrue
    obtain ⟨s, hs, hsu⟩ := (key o u).1 htrue
    exact hu s hs hsu
  · intro hempty u
    rw [Bool.eq_false_iff]
    intro htrue
    obtain ⟨s, hs, _⟩ := (key o u).1 htrue
    rw [hempty] at hs
    exact absurd hs (List.not_mem_nil s)

/-- Witness for C8: on the info `["info", "b"]` the text "Info", which differs
from the first entry only in case, is not found. -/
theorem ScoreObject.hasThisInfo_iff_witness :
    ScoreObject.hasThisInfo ⟨["info", "b"]⟩ "Info" = false ∧
    ScoreObject.hasThisInfo ⟨[]⟩ "b" = false :=
  ⟨(ScoreObject.hasThisInfo_iff ⟨["info", "b"]⟩ "b").2.2.1 "Info" (by decide),
   (ScoreObject.hasThisInfo_iff ⟨[]⟩ "b").2.2.2 rfl "b"⟩

/-- C9. After `addInfo(t)` on an object with info sequence `s`, `getInfo()` is
`s` followed by `t`: one entry more, at the end, also when `t` occurs in `s`. -/
theorem ScoreObject.getInfo_addInfo (o : ScoreObject) (t : String) :
    (o.addInfo t).getInfo = o.getInfo ++ [t] ∧
    (o.addInfo t).getInfo.length = o.getInfo.length + 1 ∧
    ((o.addInfo t).addInfo t).getInfo = o.getInfo ++ [t, t] := by
  simp [ScoreObject.addInfo, ScoreObject.getInfo]

/-- C10. For every Item and every container reference `c`, null included,
`getContainer()` after `setContainer(c)` returns `c`, whatever reference the Item
held before; `setContainer` is a total function with no failing path. The same
holds for the Item at an address of the heap. -/
theorem Item.getContainer_setContainer (i : Item) (c : ContainerPtr) (h : Heap)
    (self : ItemPtr) :
    (i.setContainer c).getContainer = c ∧
    ((h.setContainer self c).items self).getContainer = c := by
  simp [Item.setContainer, Item.getContainer, Heap.setContainer]

/-! ### The constructor of Item -/

/-- C11. The Item constructor forwards its bag unchanged: construction of an
Item from a bag succeeds exactly when construction of a ScoreObject from the
same bag does, it fails with the same error when it fails, and on success the
Item has the info of the ScoreObject built from that bag (with no parameters and
the initial container). -/
theorem Item.construct_forwards (as : Args) (c : ContainerPtr) :
    ((∃ i, Item.construct as c = .ok i) ↔ ∃ o, ScoreObject.construct as = .ok o) ∧
    (∀ e, Item.construct as c = .error e ↔ ScoreObject.construct as = .error e) ∧
    (∀ o, ScoreObject.construct as = .ok o →
      ∃ i, Item.construct as c = .ok i ∧ i.getInfo = o.getInfo ∧
        i.getParameters = [] ∧ i.getContainer = c) := by
  cases hctor : ScoreObject.construct as with
  | error e' =>
    have hitem : Item.construct as c = .error e' := by
      simp only [Item.construct, hctor]
    rw [hitem]
    refine ⟨⟨?_, ?_⟩, fun e => by simp only [Except.error.injEq], ?_⟩
    · rintro ⟨i, hi⟩
      exact Except.noConfusion hi
    · rintro ⟨o, ho⟩
      exact Except.noConfusion ho
    · intro o ho
      exact Except.noConfusion ho
  | ok base =>
    have hitem : Item.construct as c =
        .ok { toScoreObject := base, parameters := [], container := c } := by
      simp only [Item.construct, hctor]
    rw [hitem]
    refine ⟨⟨fun _ => ⟨base, rfl⟩, fun _ => ⟨_, rfl⟩⟩, ?_, ?_⟩
    · intro e
      constructor <;> intro he <;> exact Except.noConfusion he
    · intro o ho
      have hbase : base = o := by
        injection ho
      subst hbase
      exact ⟨_, rfl, rfl, rfl, rfl⟩

/-- Witness for C11: the bag `{"info": "x"}` builds an Item with info `["x"]`,
and the bag `{"zeta": 1}` fails for the Item with the error of the ScoreObject. -/
theorem Item.construct_forwards_witness :
    (∃ i, Item.construct (Args.ofList [("info", .string "x")]) none = .ok i ∧
      i.getInfo = ScoreObject.getInfo ⟨["x"]⟩ ∧ i.getParameters = [] ∧
      i.getContainer = none) ∧
    Item.construct (Args.ofList [("zeta", .int 1)]) (some 3) =
      .error (.invalid_argument "ScoreObject::ScoreObject(args as)zeta") :=
  ⟨(Item.construct_forwards (Args.ofList [("info", .string "x")]) none).2.2 ⟨["x"]⟩ rfl,
   ((Item.construct_forwards (Args.ofList [("zeta", .int 1)]) (some 3)).2.1
      (.invalid_argument "ScoreObject::ScoreObject(args as)zeta")).2 rfl⟩

/-! ### Extraction from the bag -/

theorem Args.count_ne_zero_of_at {as : Args} {key : String} {v : ArgValue}
    (h : as.at key = .ok v) : as.count key ≠ 0 := by
  intro hz
  simp only [Args.count, List.length_eq_zero, List.filter_eq_nil_iff] at hz
  have hnone : as.entries.find? (fun e => keyEquiv e.1 key) = none :=
    List.find?_eq_none.2 hz
  simp only [Args.at, hnone] at h
  exact Except.noConfusion h

/-- C12. Extraction is type-checked and never coerces: the visitor `getArg<T>`
returns the stored value unchanged when the variant holds kind `T` and fails with
the type-mismatch error `std::invalid_argument{"invalid type"}` when it holds any
other kind; `extractIntArg` on a bag whose named key holds a text fails with
that error and returns neither an integer nor the default. -/
theorem getArg_typeChecked (T : Kind) (v : ArgValue) :
    (v.kind = T → ∃ x, getArg T v = .ok x ∧ ArgValue.ofKind T x = v) ∧
    (v.kind ≠ T → getArg T v = .error (.invalid_argument "invalid type")) ∧
    (∀ (as : Args) (argName str : String) (defaultVal : Int),
      as.at argName = .ok (.string str) →
      extractIntArg as argName defaultVal = .error (.invalid_argument "invalid type")) := by
  refine ⟨?_, ?_, ?_⟩
  · intro hkind
    subst hkind
    cases v with
    | int i => exact ⟨i, rfl, rfl⟩
    | string str => exact ⟨str, rfl, rfl⟩
    | scoreObject x => exact ⟨x, rfl, rfl⟩
    | vectorOfScoreObjects xs => exact ⟨xs, rfl, rfl⟩
  · intro hkind
    cases T <;> cases v <;> first | rfl | exact absurd rfl hkind
  · intro as argName str defaultVal hat
    have hc := Args.count_ne_zero_of_at hat
    simp only [extractIntArg, hat]
    rw [if_pos hc]
    rfl

/-- Witness for C12: the integer visitor on the text "7" and on the integer 7,
and `extractIntArg` for the key "n" of the bag `{"n": "7"}`. -/
theorem getArg_typeChecked_witness :
    getArg .int (.string "7") = .error (.invalid_argument "invalid type") ∧
    (∃ x, getArg .int (.int 7) = .ok x ∧ ArgValue.ofKind .int x = .int 7) ∧
    extractIntArg (Args.ofList [("n", .string "7")]) "n" 0 =
      .error (.invalid_argument "invalid type") :=
  ⟨(getArg_typeChecked .int (.string "7")).2.1 (by decide),
   (getArg_typeChecked .int (.int 7)).1 rfl,
   (getArg_typeChecked .int (.int 7)).2.2 (Args.ofList [("n", .string "7")]) "n" "7" 0 rfl⟩

theorem Args.ext_entries {a b : Args} (h : a.entries = b.entries) : a = b := by
  cases a
  cases b
  simp only at h
  subst h
  rfl

theorem reduceArgsBy_entries_eq (as : Args) (keys : List String) :
    (reduceArgsBy as keys).entries = as.entries.filter (fun e => decide (e.1 ∉ keys)) := by
  induction keys generalizing as with
  | nil => simp [reduceArgsBy]
  | cons k ks ih =>
    have hstep : reduceArgsBy as (k :: ks) = reduceArgsBy (as.erase k) ks := rfl
    rw [hstep, ih]
    simp only [Args.erase, List.filter_filter]
    apply List.filter_congr
    intro e _
    by_cases hk : e.1 = k
    · simp [hk, keyEquiv_iff.2 rfl]
    · have hne : keyEquiv e.1 k = false := by
        rw [Bool.eq_false_iff]
        exact fun h => hk (keyEquiv_iff.1 h)
      simp [hk, hne]

/-- C13. The result of `reduceArgsBy(b, keys)` holds exactly the entries of `b`
whose name is not in `keys`, values and order unchanged; with `keys` listing all
keys of `b` it is the empty bag, and with the empty key list it is `b`. -/
theorem reduceArgsBy_spec (b : Args) (keys : List String) :
    (reduceArgsBy b keys).entries = b.entries.filter (fun e => decide (e.1 ∉ keys)) ∧
    ((∀ k ∈ b.keys, k ∈ keys) → reduceArgsBy b keys = Args.empty) ∧
    reduceArgsBy b b.keys = Args.empty ∧
    reduceArgsBy b [] = b := by
  have hall : ∀ ks : List String, (∀ k ∈ b.keys, k ∈ ks) → reduceArgsBy b ks = Args.empty := by
    intro ks hks
    apply Args.ext_entries
    rw [reduceArgsBy_entries_eq]
    simp only [Args.empty, List.filter_eq_nil_iff]
    intro e he
    have : e.1 ∈ ks := hks e.1 (List.mem_map.2 ⟨e, he, rfl⟩)
    simp [this]
  exact ⟨reduceArgsBy_entries_eq b keys, hall keys, hall b.keys (fun _ hk => hk), rfl⟩

/-- Witness for C13: the bag `{"info": "x", "n": 1}` reduced by a key list that
covers its keys. -/
theorem reduceArgsBy_spec_witness :
    reduceArgsBy (Args.ofList [("info", .string "x"), ("n", .int 1)]) ["n", "info", "m"] =
      Args.empty :=
  (reduceArgsBy_spec (Args.ofList [("info", .string "x"), ("n", .int 1)])
    ["n", "info", "m"]).2.1 (by
      intro k hk
      have hkeys : (Args.ofList [("info", .string "x"), ("n", .int 1)]).keys =
          ["info", "n"] := rfl
      rw [hkeys] at hk
      simp only [List.mem_cons, List.mem_singleton, List.not_mem_nil, or_false] at hk
      rcases hk with rfl | rfl <;> decide)

/-! ### The key named by the constructor's error -/

theorem Args.keys_nodup (as : Args) : as.keys.Nodup := by
  have h : as.entries.Pairwise (fun a b => a.1 ≠ b.1) := by
    refine as.ordered.imp ?_
    intro a b hab heq
    rw [heq, keyLess_irrefl] at hab
    exact Bool.noConfusion hab
  exact List.pairwise_map.2 h

/-- The first entry left after `erase(key)` carries the least of the other keys. -/
theorem Args.head_erase_least (as : Args) (key : String) {x : String × ArgValue}
    {rest : List (String × ArgValue)} (hx : (as.erase key).entries = x :: rest) :
    x.1 ∈ as.keys ∧ x.1 ≠ key ∧
      ∀ k ∈ as.keys, k ≠ key → k = x.1 ∨ keyLess x.1 k = true := by
  have hmem : ∀ e, e ∈ (as.erase key).entries ↔ e ∈ as.entries ∧ e.1 ≠ key := by
    intro e
    simp only [Args.erase, List.mem_filter, Bool.not_eq_true', and_congr_right_iff]
    intro _
    rw [← Bool.not_eq_true, keyEquiv_iff]
  have hxmem : x ∈ as.entries ∧ x.1 ≠ key := (hmem x).1 (by rw [hx]; exact List.mem_cons_self _ _)
  have hord := (as.erase key).ordered
  rw [hx] at hord
  have hlt := (List.pairwise_cons.1 hord).1
  refine ⟨List.mem_map.2 ⟨x, hxmem.1, rfl⟩, hxmem.2, ?_⟩
  intro k hk hne
  obtain ⟨e, he, rfl⟩ := List.mem_map.1 hk
  have he' : e ∈ x :: rest := by
    rw [← hx]
    exact (hmem e).2 ⟨he, hne⟩
  rcases List.mem_cons.1 he' with rfl | he'
  · exact Or.inl rfl
  · exact Or.inr (hlt e he')

theorem insertEntry_perm (k : String) (v : ArgValue) {l : List (String × ArgValue)}
    (hk : ∀ e ∈ l, e.1 ≠ k) : (insertEntry k v l).Perm ((k, v) :: l) := by
  induction l with
  | nil => simp [insertEntry]
  | cons x rest ih =>
    simp only [insertEntry]
    split_ifs with h₁ h₂
    · exact List.Perm.refl _
    · exact ((ih (fun e he => hk e (List.mem_cons_of_mem _ he))).cons x).trans
        (List.Perm.swap _ _ _)
    · exfalso
      apply hk x (List.mem_cons_self _ _)
      apply keyEquiv_iff.1
      simp only [keyEquiv, Bool.and_eq_true, Bool.not_eq_true']
      exact ⟨by simpa using h₂, by simpa using h₁⟩

theorem foldl_insert_perm (l : List (String × ArgValue)) (acc : Args)
    (hnodup : ((acc.entries ++ l).map Prod.fst).Nodup) :
    (l.foldl (fun as e => as.insert e.1 e.2) acc).entries.Perm (acc.entries ++ l) := by
  induction l generalizing acc with
  | nil => simp
  | cons e l ih =>
    have hmid : (acc.entries ++ e :: l).Perm (e :: (acc.entries ++ l)) := List.perm_middle
    have hnd : ((e :: (acc.entries ++ l)).map Prod.fst).Nodup :=
      (hmid.map Prod.fst).nodup_iff.1 hnodup
    have hfresh : ∀ a ∈ acc.entries, a.1 ≠ e.1 := by
      intro a ha heq
      have hnd₂ : (e.1 :: (acc.entries ++ l).map Prod.fst).Nodup := hnd
      apply (List.nodup_cons.1 hnd₂).1
      rw [← heq]
      exact List.mem_map.2 ⟨a, List.mem_append_left _ ha, rfl⟩
    have hins : (acc.insert e.1 e.2).entries.Perm (e :: acc.entries) :=
      insertEntry_perm e.1 e.2 hfresh
    have hins' : ((acc.insert e.1 e.2).entries ++ l).Perm (e :: (acc.entries ++ l)) :=
      hins.append_right l
    have hnd' : (((acc.insert e.1 e.2).entries ++ l).map Prod.fst).Nodup :=
      (hins'.map Prod.fst).nodup_iff.2 hnd
    exact ((ih (acc.insert e.1 e.2) hnd').trans hins').trans hmid.symm

/-- Whatever the order in which the entries of a bag are written, the
initializer-list constructor builds the same bag. -/
theorem Args.ofList_of_perm (as : Args) {l : List (String × ArgValue)}
    (hperm : l.Perm as.entries) : Args.ofList l = as := by
  apply Args.ext_entries
  have hnodup : ((Args.empty.entries ++ l).map Prod.fst).Nodup := by
    have : (l.map Prod.fst).Perm as.keys := hperm.map Prod.fst
    simpa [Args.empty] using this.nodup_iff.2 as.keys_nodup
  have h₁ : (Args.ofList l).entries.Perm as.entries := by
    have := foldl_insert_perm l Args.empty hnodup
    simp only [Args.empty, List.nil_append] at this
    exact this.trans hperm
  haveI : IsAntisymm (String × ArgValue) (fun a b => keyLess a.1 b.1 = true) :=
    ⟨fun a b hab hba => by
      have := keyLess_trans hab hba
      rw [keyLess_irrefl] at this
      exact Bool.noConfusion this⟩
  exact List.eq_of_perm_of_sorted h₁ (Args.ofList l).ordered as.ordered

theorem c_str_signature_append (k : String) :
    c_str ("ScoreObject::ScoreObject(args as)" ++ k) =
      "ScoreObject::ScoreObject(args as)" ++ c_str k := by
  apply String.ext
  simp only [c_str, String.data_append]
  exact List.takeWhile_append_of_pos (by decide)

theorem c_str_eq_self {k : String} (hk : ∀ c ∈ k.data, c.toNat ≠ 0) : c_str k = k := by
  apply String.ext
  simp only [c_str]
  rw [List.takeWhile_eq_self_iff]
  intro c hc
  simpa using hk c hc

/-- C14, as stated, fails in two ways. First, on the source alone: the bag
`{"a\0b": 1, "b": 2}` has no "info" entry and two other keys, of which `"a\0b"`
is the least; the message of the error, read through `what()`, stops at the NUL
and is the signature text followed by "a", which is not the signature text
followed by the key and names no key of the bag. Second, with the extractor
modelled from the spec: in the bag `{"info": 5, "zeta": 1, "alpha": 2}` the
value under "info" is not a text, and the constructor fails in the extraction of
"info", before the loop over the remaining keys, with a message that names no
key. -/
theorem ScoreObject.construct_message_not_least_key :
    ((Args.ofList [("a\x00b", .int 1), ("b", .int 2)]).keys = ["a\x00b", "b"] ∧
      keyLess "a\x00b" "b" = true ∧
      ScoreObject.construct (Args.ofList [("a\x00b", .int 1), ("b", .int 2)]) =
        .error (.invalid_argument "ScoreObject::ScoreObject(args as)a") ∧
      ScoreObject.construct (Args.ofList [("a\x00b", .int 1), ("b", .int 2)]) ≠
        .error (.invalid_argument ("ScoreObject::ScoreObject(args as)" ++ "a\x00b")) ∧
      "a" ∉ (Args.ofList [("a\x00b", .int 1), ("b", .int 2)]).keys) ∧
    ((Args.ofList [("info", .int 5), ("zeta", .int 1), ("alpha", .int 2)]).keys =
        ["alpha", "info", "zeta"] ∧
      ScoreObject.construct
          (Args.ofList [("info", .int 5), ("zeta", .int 1), ("alpha", .int 2)]) =
        .error (.invalid_argument "invalid type") ∧
      ScoreObject.construct
          (Args.ofList [("info", .int 5), ("zeta", .int 1), ("alpha", .int 2)]) ≠
        .error (.invalid_argument ("ScoreObject::ScoreObject(args as)" ++ "alpha"))) := by
  refine ⟨⟨rfl, by decide, rfl, ?_, by decide⟩, rfl, rfl, ?_⟩
  · intro h
    have h' : (Except.error (.invalid_argument "ScoreObject::ScoreObject(args as)a") :
        Except Exception ScoreObject) =
        .error (.invalid_argument ("ScoreObject::ScoreObject(args as)" ++ "a\x00b")) := h
    injection h' with h'
    injection h' with h'
    exact absurd h' (by decide)
  · intro h
    have h' : (Except.error (.invalid_argument "invalid type") :
        Except Exception ScoreObject) =
        .error (.invalid_argument ("ScoreObject::ScoreObject(args as)" ++ "alpha")) := h
    injection h' with h'
    injection h' with h'
    exact absurd h' (by decide)

/-- C14, amended. For every bag whose "info" entry, if present, holds a text and
which has a key other than "info": the constructor fails with
`std::invalid_argument`; the key it names is the least key other than "info" in
the key order of the bag; the message is exactly the signature text followed,
with no separator, by that key up to its first NUL character, hence by the
whole key when the key contains no NUL; and every writing order of the entries
builds the same bag, so the named key does not depend on it. -/
theorem ScoreObject.construct_names_least_key (as : Args)
    (htext : ∀ e ∈ as.entries, e.1 = "info" → ∃ str, e.2 = ArgValue.string str)
    (hother : ∃ k ∈ as.keys, k ≠ "info") :
    (∃ k ∈ as.keys, k ≠ "info" ∧
      (∀ k' ∈ as.keys, k' ≠ "info" → k' = k ∨ keyLess k k' = true) ∧
      ScoreObject.construct as =
        .error (.invalid_argument ("ScoreObject::ScoreObject(args as)" ++ c_str k)) ∧
      ((∀ c ∈ k.data, c.toNat ≠ 0) →
        ScoreObject.construct as =
          .error (.invalid_argument ("ScoreObject::ScoreObject(args as)" ++ k)))) ∧
    (∀ l : List (String × ArgValue), l.Perm as.entries → Args.ofList l = as) := by
  refine ⟨?_, fun l hl => Args.ofList_of_perm as hl⟩
  obtain ⟨info, hctor⟩ := ScoreObject.construct_eq_of_text as htext
  cases hrest : (as.erase "info").entries with
  | nil =>
    exfalso
    obtain ⟨k, hk, hne⟩ := hother
    exact hne ((Args.erase_entries_eq_nil_iff as "info").1 hrest k hk)
  | cons x rest =>
    rw [hrest] at hctor
    obtain ⟨hmem, hne, hleast⟩ := Args.head_erase_least as "info" hrest
    have hmsg : ScoreObject.construct as =
        .error (.invalid_argument ("ScoreObject::ScoreObject(args as)" ++ c_str x.1)) := by
      rw [hctor]
      show Except.error (Exception.invalid_argument
        (c_str ("ScoreObject::ScoreObject(args as)" ++ x.1))) = _
      rw [c_str_signature_append]
    refine ⟨x.1, hmem, hne, hleast, hmsg, ?_⟩
    intro hnul
    rw [hmsg, c_str_eq_self hnul]

/-- Witness for the amended C14: the bag written as `{"zeta": 1, "b\0c": 2}` has
the least key `"b\0c"`, and the message ends in that key cut at its NUL. -/
theorem ScoreObject.construct_names_least_key_witness :
    ((∃ k ∈ (Args.ofList [("zeta", .int 1), ("b\x00c", .int 2)]).keys, k ≠ "info" ∧
      (∀ k' ∈ (Args.ofList [("zeta", .int 1), ("b\x00c", .int 2)]).keys,
        k' ≠ "info" → k' = k ∨ keyLess k k' = true) ∧
      ScoreObject.construct (Args.ofList [("zeta", .int 1), ("b\x00c", .int 2)]) =
        .error (.invalid_argument ("ScoreObject::ScoreObject(args as)" ++ c_str k)) ∧
      ((∀ c ∈ k.data, c.toNat ≠ 0) →
        ScoreObject.construct (Args.ofList [("zeta", .int 1), ("b\x00c", .int 2)]) =
          .error (.invalid_argument ("ScoreObject::ScoreObject(args as)" ++ k)))) ∧
    (∀ l : List (String × ArgValue),
      l.Perm (Args.ofList [("zeta", .int 1), ("b\x00c", .int 2)]).entries →
      Args.ofList l = Args.ofList [("zeta", .int 1), ("b\x00c", .int 2)])) ∧
    ScoreObject.construct (Args.ofList [("zeta", .int 1), ("b\x00c", .int 2)]) =
      .error (.invalid_argument "ScoreObject::ScoreObject(args as)b") :=
  ⟨ScoreObject.construct_names_least_key
    (Args.ofList [("zeta", .int 1), ("b\x00c", .int 2)])
    (by
      intro e he hkey
      have hentries : (Args.ofList [("zeta", .int 1), ("b\x00c", .int 2)]).entries =
          [("b\x00c", .int 2), ("zeta", .int 1)] := rfl
      rw [hentries] at he
      simp only [List.mem_cons, List.mem_singleton, List.not_mem_nil, or_false] at he
      rcases he with rfl | rfl <;> exact absurd hkey (by decide))
    ⟨"zeta", by decide, by decide⟩,
   rfl⟩

/-- The example of C14 evaluated: written as `{"zeta": 1, "alpha": 2}` or as
`{"alpha": 2, "zeta": 1}`, the bag makes the constructor name "alpha". -/
theorem ScoreObject.construct_zeta_alpha :
    ScoreObject.construct (Args.ofList [("zeta", .int 1), ("alpha", .int 2)]) =
      .error (.invalid_argument "ScoreObject::ScoreObject(args as)alpha") ∧
    ScoreObject.construct (Args.ofList [("alpha", .int 2), ("zeta", .int 1)]) =
      .error (.invalid_argument "ScoreObject::ScoreObject(args as)alpha") :=
  ⟨rfl, rfl⟩

/-! ### Composition and frame of linking -/

/-- C15. Linking composes over concatenation: `bilinkParameters(ps₁)` followed by
`bilinkParameters(ps₂)` on the same Item leaves the same heap (the parameter
sequence of every Item and the back-reference of every Parameter) as the single
call with `ps₁` followed by `ps₂`; linking the empty sequence changes nothing. -/
theorem Item.bilinkParameters_append (h : Heap) (self : ItemPtr)
    (ps₁ ps₂ : List ParameterPtr) :
    Item.bilinkParameters (Item.bilinkParameters h self ps₁) self ps₂ =
      Item.bilinkParameters h self (ps₁ ++ ps₂) ∧
    Item.bilinkParameters h self [] = h := by
  refine ⟨?_, rfl⟩
  simp only [Item.bilinkParameters, List.foldl_append]

/-- C16. The member `bilinkParameters` touches only the relation it establishes:
the receiver keeps its container and its info, its old parameters are an initial
segment of the new sequence, every other Item is unchanged (so is its parameter
sequence), and every Parameter that does not occur in `ps` keeps its
back-reference. -/
theorem Item.bilinkParameters_frame (h : Heap) (self : ItemPtr) (ps : List ParameterPtr) :
    ((Item.bilinkParameters h self ps).items self).getContainer =
        (h.items self).getContainer ∧
    ((Item.bilinkParameters h self ps).items self).getInfo = (h.items self).getInfo ∧
    (h.items self).getParameters <+:
        ((Item.bilinkParameters h self ps).items self).getParameters ∧
    (∀ j, j ≠ self →
      (Item.bilinkParameters h self ps).items j = h.items j ∧
      ((Item.bilinkParameters h self ps).items j).getParameters =
        (h.items j).getParameters) ∧
    (∀ q, q ∉ ps → ((Item.bilinkParameters h self ps).params q).item = (h.params q).item) := by
  have hself : (Item.bilinkParameters h self ps).items self =
      { h.items self with parameters := (h.items self).parameters ++ ps } := by
    rw [Item.bilinkParameters_items, if_pos rfl]
  refine ⟨by rw [hself]; rfl, by rw [hself], ⟨ps, by rw [hself]; rfl⟩, ?_, ?_⟩
  · intro j hj
    have hitem : (Item.bilinkParameters h self ps).items j = h.items j := by
      rw [Item.bilinkParameters_items, if_neg hj]
    exact ⟨hitem, by rw [hitem]⟩
  · intro q hq
    rw [Item.bilinkParameters_params, if_neg hq]

/-- Witness for C16: Item 0, which holds parameter 1 and the info "a" in a
container, links `[2, 3]`; Item 5 and parameter 4 are untouched. -/
theorem Item.bilinkParameters_frame_witness :
    (Item.bilinkParameters
        ((((Heap.fresh.addInfo 0 "a").setContainer 0 (some 8)).run
          [.bilinkParameters 0 [1], .bilinkParameters 5 [4]])) 0 [2, 3]).items 5 =
      ((((Heap.fresh.addInfo 0 "a").setContainer 0 (some 8)).run
          [.bilinkParameters 0 [1], .bilinkParameters 5 [4]])).items 5 ∧
    ((Item.bilinkParameters
        ((((Heap.fresh.addInfo 0 "a").setContainer 0 (some 8)).run
          [.bilinkParameters 0 [1], .bilinkParameters 5 [4]])) 0 [2, 3]).params 4).item =
      some 5 :=
  ⟨((Item.bilinkParameters_frame
        ((((Heap.fresh.addInfo 0 "a").setContainer 0 (some 8)).run
          [.bilinkParameters 0 [1], .bilinkParameters 5 [4]])) 0 [2, 3]).2.2.2.1 5
        (by decide)).1,
   ((Item.bilinkParameters_frame
        ((((Heap.fresh.addInfo 0 "a").setContainer 0 (some 8)).run
          [.bilinkParameters 0 [1], .bilinkParameters 5 [4]])) 0 [2, 3]).2.2.2.2 4
        (by decide)).trans (by decide)⟩

/-! ### Growth of the info sequence -/

theorem Operation.apply_info (h : Heap) (op : Operation) (i : ItemPtr) :
    ∃ s, ((op.apply h).items i).info = (h.items i).info ++ s := by
  cases op with
  | addInfo self myInfo =>
    by_cases hi : i = self
    · subst hi
      exact ⟨[myInfo], by simp [Operation.apply, Heap.addInfo, ScoreObject.addInfo]⟩
    · exact ⟨[], by simp [Operation.apply, Heap.addInfo, hi]⟩
  | setContainer self c =>
    by_cases hi : i = self
    · subst hi
      exact ⟨[], by simp [Operation.apply, Heap.setContainer, Item.setContainer]⟩
    · exact ⟨[], by simp [Operation.apply, Heap.setContainer, hi]⟩
  | bilinkParameters self ps =>
    refine ⟨[], ?_⟩
    simp only [Operation.apply, Item.bilinkParameters_items, List.append_nil]
    by_cases hi : i = self
    · subst hi
      rw [if_pos rfl]
    · rw [if_neg hi]

theorem Heap.run_info (h : Heap) (ops : List Operation) (i : ItemPtr) :
    ∃ s, ((h.run ops).items i).info = (h.items i).info ++ s := by
  induction ops generalizing h with
  | nil => exact ⟨[], by simp [Heap.run]⟩
  | cons op ops ih =>
    obtain ⟨s₁, h₁⟩ := Operation.apply_info h op i
    obtain ⟨s₂, h₂⟩ := ih (op.apply h)
    refine ⟨s₁ ++ s₂, ?_⟩
    have hrun : h.run (op :: ops) = (op.apply h).run ops := rfl
    rw [hrun, h₂, h₁, List.append_assoc]

theorem ScoreObject.foldl_addInfo (o : ScoreObject) (ts : List String) :
    (ts.foldl ScoreObject.addInfo o).info = o.info ++ ts := by
  induction ts generalizing o with
  | nil => simp
  | cons t ts ih =>
    rw [List.foldl_cons, ih]
    simp [ScoreObject.addInfo]

theorem Heap.run_addInfo (h : Heap) (i : ItemPtr) (ts : List String) :
    ((h.run (ts.map (Operation.addInfo i))).items i).info = (h.items i).info ++ ts := by
  induction ts generalizing h with
  | nil => simp [Heap.run]
  | cons t ts ih =>
    have hrun : h.run ((t :: ts).map (Operation.addInfo i)) =
        (h.addInfo i t).run (ts.map (Operation.addInfo i)) := rfl
    rw [hrun, ih]
    simp [Heap.addInfo, ScoreObject.addInfo]

/-- C17. The info sequence only grows: across each of `addInfo`, `setContainer`
and `bilinkParameters`, called on any Item, and across any sequence of them, the
info of every Item before is an initial segment of its info after; so
`hasThisInfo(t)`, once true, stays true; and after `addInfo(t₁)`, ...,
`addInfo(tₙ)` the info is the earlier info followed by `t₁, ..., tₙ` in call
order, for a ScoreObject and for an Item of the heap. -/
theorem Heap.info_grows (h : Heap) (op : Operation) (ops : List Operation) (i : ItemPtr)
    (t : String) (o : ScoreObject) (ts : List String) :
    (h.items i).getInfo <+: ((op.apply h).items i).getInfo ∧
    (h.items i).getInfo <+: ((h.run ops).items i).getInfo ∧
    ((h.items i).hasThisInfo t = true → ((h.run ops).items i).hasThisInfo t = true) ∧
    o.getInfo <+: (o.addInfo t).getInfo ∧
    (o.hasThisInfo t = true → (ts.foldl ScoreObject.addInfo o).hasThisInfo t = true) ∧
    (ts.foldl ScoreObject.addInfo o).getInfo = o.getInfo ++ ts ∧
    ((h.run (ts.map (Operation.addInfo i))).items i).getInfo = (h.items i).getInfo ++ ts := by
  obtain ⟨s₁, h₁⟩ := Operation.apply_info h op i
  obtain ⟨s₂, h₂⟩ := Heap.run_info h ops i
  refine ⟨⟨s₁, h₁.symm⟩, ⟨s₂, h₂.symm⟩, ?_, ⟨[t], rfl⟩, ?_,
    ScoreObject.foldl_addInfo o ts, Heap.run_addInfo h i ts⟩
  · intro ht
    simp only [ScoreObject.hasThisInfo] at ht ⊢
    rw [h₂, List.any_append, ht, Bool.true_or]
  · intro ht
    simp only [ScoreObject.hasThisInfo] at ht ⊢
    rw [ScoreObject.foldl_addInfo, List.any_append, ht, Bool.true_or]

/-- Witness for C17: Item 0 gets the info "a"; after a link, a container change
and two more `addInfo` calls the text "a" is still found. -/
theorem Heap.info_grows_witness :
    (((Heap.fresh.addInfo 0 "a").run
      [.bilinkParameters 0 [1], .setContainer 0 (some 2), .addInfo 0 "b",
       .addInfo 0 "a"]).items 0).hasThisInfo "a" = true :=
  (Heap.info_grows (Heap.fresh.addInfo 0 "a") (.addInfo 0 "b")
    [.bilinkParameters 0 [1], .setContainer 0 (some 2), .addInfo 0 "b", .addInfo 0 "a"]
    0 "a" ⟨[]⟩ []).2.2.1 (by decide)

end StrasheelaSuccessor
